import Mathlib

/-!
# apipass: a bearer-token gate for Caddy

A shallow embedding of `apipass.go` (package `apipass`) together with the parts
of the host libraries its methods call (`net/http` headers and response writer,
`caddyfile.Dispenser`), followed by theorems about request gating, setup
validation and Caddyfile parsing.

Go strings are embedded as Lean `String`s; a Go `error` is embedded as its
message, and a nil error as `none`.
-/

set_option autoImplicit false

namespace Apipass

/-! ## Host library: `net/http`

The packages `net/http` and `net/textproto` belong to the Go standard library, not to
the repository; the definitions of this section follow the library functions that
`ServeHTTP` calls. -/

/-- Go `error`, represented by its message. -/
abbrev Error := String

/-- The `validHeaderFieldByte` test of `net/textproto`: the token characters of RFC 7230. -/
def validHeaderFieldByte (c : Char) : Bool :=
  c.isAlphanum || "!#$%&*+-.^_|~".data.contains c || c.toNat = 39 || c.toNat = 96

/-- The casing loop of `canonicalMIMEHeaderKey`: upper case for the first letter and
for each letter after a dash, lower case elsewhere. -/
def canonicalCase : Bool → List Char → List Char
  | _, [] => []
  | upper, c :: cs =>
    let c1 := if upper && c.isLower then c.toUpper
              else if !upper && c.isUpper then c.toLower else c
    c1 :: canonicalCase (c1 = '-') cs

/-- The function `textproto.CanonicalMIMEHeaderKey`: a key holding a byte that is
not a header field byte is returned unchanged, any other key is put in canonical
case. -/
def CanonicalMIMEHeaderKey (s : String) : String :=
  if s.data.all validHeaderFieldByte then String.mk (canonicalCase true s.data) else s

/-- Go `http.Header` (`map[string][]string`), as an association list. -/
abbrev Header := List (String × List String)

/-- The method `Header.Get`: the first value stored under the canonical form of `key`,
and the empty string when there is none. -/
def Header.Get (h : Header) (key : String) : String :=
  match h.lookup (CanonicalMIMEHeaderKey key) with
  | some (v :: _) => v
  | _ => ""

/-- The method `Header.Set`: the canonical form of `key` is bound to the single value
`value`, replacing what was stored there. -/
def Header.Set (h : Header) (key value : String) : Header :=
  (CanonicalMIMEHeaderKey key, [value]) ::
    h.filter (fun kv => kv.1 != CanonicalMIMEHeaderKey key)

/-- Go `*http.Request`, with the fields a handler can look at. -/
structure Request where
  Method : String
  URL : String
  Header : Header
  Body : String
deriving DecidableEq

/-- The state behind an `http.ResponseWriter`: the header map, the status code once it
has been written, and the body bytes written so far. -/
structure ResponseWriter where
  header : Header
  status : Option Nat
  body : String
deriving DecidableEq

/-- The call `w.Header().Set(key, value)`. -/
def ResponseWriter.HeaderSet (w : ResponseWriter) (key value : String) : ResponseWriter :=
  { w with header := Header.Set w.header key value }

/-- The method `ResponseWriter.WriteHeader`: the first status code written is the one
that is sent, a later call is superfluous and changes nothing. -/
def ResponseWriter.WriteHeader (w : ResponseWriter) (statusCode : Nat) : ResponseWriter :=
  match w.status with
  | none => { w with status := some statusCode }
  | some _ => w

/-- Go `http.StatusUnauthorized`. -/
def StatusUnauthorized : Nat := 401

/-- Go `caddyhttp.Handler`: the rest of the chain, as a function of the response writer
state and the request that gives the new writer state and the returned error. -/
abbrev Handler := ResponseWriter → Request → ResponseWriter × Option Error

/-! ## The module: `Middleware` -/

/-- Go `type Middleware struct { Token string }`. -/
structure Middleware where
  Token : String
deriving DecidableEq

/-- The method `Middleware.Provision`; `resolve` stands for
`caddy.NewReplacer().ReplaceAll(_, "")`, the placeholder substitution of the host.
Returns the receiver after the call and the returned error. -/
def Middleware.Provision (resolve : String → String) (m : Middleware) :
    Middleware × Option Error :=
  ({ m with Token := resolve m.Token }, none)

/-- The method `Middleware.Validate`. -/
def Middleware.Validate (m : Middleware) : Option Error :=
  if m.Token = "" then some "Token is empty" else none

/-- Modelled from the spec: the host's setup sequence, which is not part of
`apipass.go`. Setup is `Provision` followed by `Validate`; an error of `Provision`
ends setup before `Validate` runs. -/
def setup (resolve : String → String) (m : Middleware) : Middleware × Option Error :=
  match Middleware.Provision resolve m with
  | (m1, some e) => (m1, some e)
  | (m1, none) => (m1, Middleware.Validate m1)

/-- What `Middleware.ServeHTTP` itself does to its collaborators, in program order. -/
inductive Event where
  | headerSet (key value : String)
  | writeHeader (statusCode : Nat)
  | nextServeHTTP (w : ResponseWriter) (r : Request)
deriving DecidableEq

/-- The result of one `ServeHTTP` call: the receiver copy as the body leaves it, the
response writer state, the returned error, and the calls the body made. -/
structure Outcome where
  recv : Middleware
  w : ResponseWriter
  err : Option Error
  trace : List Event
deriving DecidableEq

/-- The method `Middleware.ServeHTTP`. -/
def Middleware.ServeHTTP (m : Middleware) (w : ResponseWriter) (r : Request)
    (next : Handler) : Outcome :=
  let auth := r.Header.Get "Authorization"
  let expectedToken := "Bearer " ++ m.Token
  if auth != expectedToken then
    let w1 := w.HeaderSet "WWW-Authenticate" "Bearer realm=\"Restricted\""
    let w2 := w1.WriteHeader StatusUnauthorized
    { recv := m, w := w2, err := none,
      trace := [Event.headerSet "WWW-Authenticate" "Bearer realm=\"Restricted\"",
                Event.writeHeader StatusUnauthorized] }
  else
    let res := next w r
    { recv := m, w := res.1, err := res.2, trace := [Event.nextServeHTTP w r] }

/-! ## Host library: `caddyfile.Dispenser`

The package `github.com/caddyserver/caddy/v2/caddyconfig/caddyfile` is imported by
`apipass.go` and is not part of the repository; the definitions of this section follow
the methods of its `dispenser.go` that `UnmarshalCaddyfile` calls, statement by
statement, as they are in the current releases of the library: a brace delimits a
block only when the token was not quoted, and a quoted brace is a token like any other
(older releases compared the text alone). A method that moves the cursor returns its
result with the new dispenser. -/

/-- Go `caddyfile.Token`: the lexeme `Text` with its position (`File`, `Line`, the
chain of `imports` it came through) and the quote character it was written in
(`wasQuoted`, the zero rune for an unquoted word, `<` for a heredoc). -/
structure Token where
  File : String
  imports : List String
  Line : Nat
  Text : String
  wasQuoted : Char
deriving DecidableEq

instance : Inhabited Token := ⟨⟨"", [], 0, "", Char.ofNat 0⟩⟩

/-- The method `Token.Quoted`: whether the token was written in quotes of any kind
(`wasQuoted > 0`). -/
def Token.Quoted (t : Token) : Bool := decide (t.wasQuoted.toNat > 0)

/-- The test for the delimiter that opens a block: the text is the opening brace and
the token was not quoted. -/
def Token.isOpenBrace (t : Token) : Bool := t.Text == "\x7b" && !t.Quoted

/-- The test for the delimiter that closes a block: the text is the closing brace and
the token was not quoted. -/
def Token.isCloseBrace (t : Token) : Bool := t.Text == "\x7d" && !t.Quoted

/-- The method `Token.NumLineBreaks`: the line feeds inside the text, and two more
for a heredoc. -/
def Token.NumLineBreaks (t : Token) : Nat :=
  let lineBreaks := t.Text.data.count (Char.ofNat 10)
  if t.wasQuoted = '<' then lineBreaks + 2 else lineBreaks

/-- The function `isNextOnNewLine`: whether `t2` starts on a later line than `t1`
ends on; tokens of different files or import chains are never on the same line. -/
def isNextOnNewLine (t1 t2 : Token) : Bool :=
  if t1.File != t2.File then true
  else if t1.imports != t2.imports then true
  else decide (t1.Line + t1.NumLineBreaks < t2.Line)

/-- Go `caddyfile.Dispenser`: the tokens of one directive, the index of the current
token (`-1` before the first) and the block nesting depth. -/
structure Dispenser where
  tokens : List Token
  cursor : Int
  nesting : Int
deriving DecidableEq

/-- The function `caddyfile.NewDispenser`. -/
def NewDispenser (tokens : List Token) : Dispenser :=
  { tokens := tokens, cursor := -1, nesting := 0 }

/-- The method `Dispenser.Token`: the current token, the zero token off the ends. -/
def Dispenser.Token (d : Dispenser) : Token :=
  if d.cursor < 0 ∨ d.cursor ≥ d.tokens.length then default
  else d.tokens.getD d.cursor.toNat default

/-- The method `Dispenser.Val`: the text of the current token. -/
def Dispenser.Val (d : Dispenser) : String := d.Token.Text

/-- The method `Dispenser.File`. -/
def Dispenser.File (d : Dispenser) : String := d.Token.File

/-- The method `Dispenser.Line`. -/
def Dispenser.Line (d : Dispenser) : Nat := d.Token.Line

/-- The method `Dispenser.Nesting`. -/
def Dispenser.Nesting (d : Dispenser) : Int := d.nesting

/-- The method `Dispenser.Next`: step to the next token when there is one. -/
def Dispenser.Next (d : Dispenser) : Bool × Dispenser :=
  if d.cursor < (d.tokens.length : Int) - 1 then (true, { d with cursor := d.cursor + 1 })
  else (false, d)

/-- The method `Dispenser.nextOnSameLine`: step to the next token when it is on the
line of the current one. -/
def Dispenser.nextOnSameLine (d : Dispenser) : Bool × Dispenser :=
  if d.cursor < 0 then (true, { d with cursor := d.cursor + 1 })
  else if d.cursor ≥ (d.tokens.length : Int) - 1 then (false, d)
  else
    let curr := d.tokens.getD d.cursor.toNat default
    let next := d.tokens.getD (d.cursor + 1).toNat default
    if !isNextOnNewLine curr next then (true, { d with cursor := d.cursor + 1 })
    else (false, d)

/-- The method `Dispenser.NextArg`: step to the next token when it is on the same line
and is not the opening brace of a block. -/
def Dispenser.NextArg (d : Dispenser) : Bool × Dispenser :=
  let (ok, d1) := d.nextOnSameLine
  if !ok then (false, d1)
  else if d1.Token.isOpenBrace then (false, { d1 with cursor := d1.cursor - 1 })
  else (true, d1)

/-- The method `Dispenser.NextBlock`: the loop condition that walks the tokens of the
block opened on the current line, braces of the outermost level left out. -/
def Dispenser.NextBlock (d : Dispenser) (initialNestingLevel : Int) : Bool × Dispenser :=
  if d.nesting > initialNestingLevel then
    let (ok, d1) := d.Next
    if !ok then (false, d1)
    else
      -- the test for the closing brace `&& !d.nextOnSameLine()`, the second operand
      -- run only when the first holds
      let (c1, d2) :=
        if d1.Token.isCloseBrace then
          let (same, d2) := d1.nextOnSameLine
          (!same, d2)
        else (false, d1)
      if c1 then
        let d3 := { d2 with nesting := d2.nesting - 1 }
        (decide (d3.nesting > initialNestingLevel), d3)
      else
        let (c2, d3) :=
          if d2.Token.isOpenBrace then
            let (same, d3) := d2.nextOnSameLine
            (!same, d3)
          else (false, d2)
        if c2 then
          let d4 := { d3 with nesting := d3.nesting + 1 }
          (decide (d4.nesting > initialNestingLevel), d4)
        else (decide (d3.nesting > initialNestingLevel), d3)
  else
    let (same, d1) := d.nextOnSameLine
    if !same then (false, d1)
    else if !d1.Token.isOpenBrace then (false, { d1 with cursor := d1.cursor - 1 })
    else
      let d2 := d1.Next.2
      if d2.Token.isCloseBrace then (false, d2)
      else (true, { d2 with nesting := d2.nesting + 1 })

/-- The method `Dispenser.WrapErr` applied to a message: the position of the current
token is appended, with the import chain when there is one. -/
def Dispenser.WrapErr (d : Dispenser) (msg : String) : Error :=
  if d.Token.imports.length > 0 then
    msg ++ ", at " ++ d.File ++ ":" ++ toString d.Line ++ " import chain [" ++ "'" ++
      String.intercalate "','" d.Token.imports ++ "'" ++ "]"
  else
    msg ++ ", at " ++ d.File ++ ":" ++ toString d.Line

/-- The method `Dispenser.ArgErr`: the error for a wrong number of arguments. -/
def Dispenser.ArgErr (d : Dispenser) : Error :=
  if d.Token.isOpenBrace then
    d.WrapErr ("unexpected token " ++ "'" ++ "\x7b" ++ "'" ++ ", expecting argument")
  else d.WrapErr ("wrong argument count or unexpected line ending after " ++ "'" ++ d.Val ++ "'")

/-- The call `d.Errf("unrecognized subdirective '%s'", d.Val())`. -/
def Dispenser.ErrfUnrecognized (d : Dispenser) : Error :=
  d.WrapErr ("unrecognized subdirective " ++ "'" ++ d.Val ++ "'")

/-! ## Caddyfile parsing -/

/-- The state of `UnmarshalCaddyfile` when it returns: the receiver, the dispenser
and the returned error. -/
structure Parsed where
  m : Middleware
  d : Dispenser
  err : Option Error
deriving DecidableEq

/-- The inner loop of `UnmarshalCaddyfile`, `for ...; d.NextBlock(nesting); { switch ... }`,
run for at most `fuel` iterations; `none` when the iterations are used up. A normal
end of the loop has `err = none`; a `return` inside the body has `err = some _`. -/
def blockLoop (nesting : Int) : Nat → Middleware → Dispenser → Option Parsed
  | 0, _, _ => none
  | fuel + 1, m, d =>
    let (more, d1) := d.NextBlock nesting
    if !more then some ⟨m, d1, none⟩
    else if d1.Val = "token" then
      let (a1, d2) := d1.NextArg
      let m1 : Middleware := if a1 then { m with Token := d2.Val } else m
      let (a2, d3) := d2.NextArg
      if a2 then some ⟨m1, d3, some d3.ArgErr⟩
      else blockLoop nesting fuel m1 d3
    else some ⟨m, d1, some d1.ErrfUnrecognized⟩

/-- The outer loop of `UnmarshalCaddyfile`, `for d.Next() { ... }`, run for at most
`fuel` iterations; `none` when the iterations are used up. -/
def nextLoop : Nat → Middleware → Dispenser → Option Parsed
  | 0, _, _ => none
  | fuel + 1, m, d =>
    let (more, d1) := d.Next
    if !more then some ⟨m, d1, none⟩
    else
      let (arg, d2) := d1.NextArg
      if arg then some ⟨m, d2, some d2.ArgErr⟩
      else
        match blockLoop d2.Nesting (d2.tokens.length + 1) m d2 with
        | none => none
        | some ⟨m1, d3, some e⟩ => some ⟨m1, d3, some e⟩
        | some ⟨m1, d3, none⟩ => nextLoop fuel m1 d3

/-- The method `Middleware.UnmarshalCaddyfile`. Every iteration of either loop moves
the cursor forward, so one more iteration than there are tokens is enough
(`UnmarshalCaddyfile_returns`). -/
def Middleware.UnmarshalCaddyfile (m : Middleware) (d : Dispenser) : Option Parsed :=
  nextLoop (d.tokens.length + 1) m d

/-- The function `parseCaddyfile`: a zero `Middleware` filled in from the dispenser. -/
def parseCaddyfile (d : Dispenser) : Option (Middleware × Option Error) :=
  (Middleware.UnmarshalCaddyfile ⟨""⟩ d).map (fun p => (p.m, p.err))

/-! ## Sample inputs -/

/-- An unquoted token of file `Caddyfile`. -/
def word (line : Nat) (text : String) : Token :=
  { File := "Caddyfile", imports := [], Line := line, Text := text, wasQuoted := Char.ofNat 0 }

/-- A double-quoted token of file `Caddyfile`. -/
def quoted (line : Nat) (text : String) : Token :=
  { File := "Caddyfile", imports := [], Line := line, Text := text, wasQuoted := Char.ofNat 34 }

/-- A request whose only header is `Authorization: auth`. -/
def requestWithAuth (auth : String) : Request :=
  { Method := "GET", URL := "/", Header := Header.Set [] "Authorization" auth, Body := "" }

/-- A fresh response writer: no header, no status, no body. -/
def freshWriter : ResponseWriter := { header := [], status := none, body := "" }

/-- A next handler that writes status 200 and the body `ok`, and returns the error `boom`. -/
def sampleNext : Handler := fun w _ =>
  ({ w.WriteHeader 200 with body := w.body ++ "ok" }, some "boom")

/-! ## Blocks of `token` lines -/

/-- A line `token <value>`: the key `token` and, on its line, a value, which is any
token but the opening brace of a block. -/
def tokenLine (key value : Token) : Bool :=
  key.Text == "token" && !isNextOnNewLine key value && !value.isOpenBrace

/-- The tokens of a list of two-token lines, in order. -/
def flatLines : List (Token × Token) → List Token
  | [] => []
  | (key, value) :: rest => key :: value :: flatLines rest

/-- The first token of `lines`, and `after` when there are no lines. -/
def firstToken (lines : List (Token × Token)) (after : Token) : Token :=
  match lines with
  | [] => after
  | (key, _) :: _ => key

/-- Every line is a `token <value>` line with exactly one value: the token that
follows the value (the key of the next line, and `after` for the last line) starts a
new line. -/
def tokenLines : List (Token × Token) → Token → Bool
  | [], _ => true
  | (key, value) :: rest, after =>
    tokenLine key value && isNextOnNewLine value (firstToken rest after) &&
      tokenLines rest after

/-- The value of the last line, and `init` when there are no lines. -/
def lastValue : List (Token × Token) → String → String
  | [], init => init
  | (_, value) :: rest, _ => lastValue rest value.Text

/-! ## Request gating -/

/-- Whether the body of `ServeHTTP` called the next handler. -/
def Outcome.calledNext (o : Outcome) : Bool :=
  o.trace.any (fun e => match e with
    | Event.nextServeHTTP _ _ => true
    | _ => false)

/-- The host serving requests one after the other with one `Middleware` value; the
receiver is threaded through the calls. -/
def serveAll : Middleware → List (ResponseWriter × Request × Handler) → Middleware × List Outcome
  | m, [] => (m, [])
  | m, (w, r, next) :: rest =>
    let o := m.ServeHTTP w r next
    let res := serveAll o.recv rest
    (res.1, o :: res.2)

theorem Header.Get_Set (h : Header) (key value : String) :
    Header.Get (Header.Set h key value) key = value := by
  simp [Header.Get, Header.Set, List.lookup]

theorem ServeHTTP_pass (m : Middleware) (w : ResponseWriter) (r : Request) (next : Handler)
    (h : r.Header.Get "Authorization" = "Bearer " ++ m.Token) :
    m.ServeHTTP w r next =
      { recv := m, w := (next w r).1, err := (next w r).2,
        trace := [Event.nextServeHTTP w r] } := by
  simp [Middleware.ServeHTTP, h]

theorem ServeHTTP_reject (m : Middleware) (w : ResponseWriter) (r : Request) (next : Handler)
    (h : r.Header.Get "Authorization" ≠ "Bearer " ++ m.Token) :
    m.ServeHTTP w r next =
      { recv := m,
        w := (w.HeaderSet "WWW-Authenticate" "Bearer realm=\"Restricted\"").WriteHeader 401,
        err := none,
        trace := [Event.headerSet "WWW-Authenticate" "Bearer realm=\"Restricted\"",
                  Event.writeHeader 401] } := by
  simp [Middleware.ServeHTTP, h, StatusUnauthorized]

theorem WriteHeader_header (w : ResponseWriter) (c : Nat) :
    (w.WriteHeader c).header = w.header := by
  unfold ResponseWriter.WriteHeader; cases w.status <;> rfl

theorem WriteHeader_body (w : ResponseWriter) (c : Nat) :
    (w.WriteHeader c).body = w.body := by
  unfold ResponseWriter.WriteHeader; cases w.status <;> rfl

theorem WriteHeader_status (w : ResponseWriter) (c : Nat) (h : w.status = none) :
    (w.WriteHeader c).status = some c := by
  unfold ResponseWriter.WriteHeader; rw [h]

theorem serveAll_recv (m : Middleware) (calls : List (ResponseWriter × Request × Handler)) :
    (serveAll m calls).1 = m := by
  induction calls generalizing m with
  | nil => rfl
  | cons c rest ih =>
    obtain ⟨w, r, next⟩ := c
    simp only [serveAll]
    rw [ih]
    unfold Middleware.ServeHTTP
    simp only []
    split <;> rfl

/-! ## The dispenser at a known position

In these lemmas the cursor is at index `i` and `toks.drop i` shows the current token
and the ones after it. -/

theorem drop_length {toks : List Token} {i : Nat} {cur : Token} {rest : List Token}
    (h : toks.drop i = cur :: rest) : toks.length = i + 1 + rest.length := by
  have := congrArg List.length h
  simp at this
  omega

theorem drop_getD {toks : List Token} {i : Nat} {cur : Token} {rest : List Token}
    (h : toks.drop i = cur :: rest) : toks.getD i default = cur := by
  have := congrArg (fun x => x.getD 0 default) h
  simpa using this

theorem drop_next {toks : List Token} {i : Nat} {cur : Token} {rest : List Token}
    (h : toks.drop i = cur :: rest) : toks.drop (i + 1) = rest := by
  have := congrArg List.tail h
  simpa using this

theorem Token_at {toks : List Token} {i : Nat} {cur : Token} {rest : List Token}
    (nest : Int) (h : toks.drop i = cur :: rest) :
    Dispenser.Token ⟨toks, (i : Nat), nest⟩ = cur := by
  have hl := drop_length h
  have hg := drop_getD h
  have h1 : ¬ ((i : Int) < 0 ∨ (i : Int) ≥ (toks.length : Int)) := by omega
  simp only [Dispenser.Token, h1, if_false, Int.toNat_ofNat, hg]

theorem Val_at {toks : List Token} {i : Nat} {cur : Token} {rest : List Token}
    (nest : Int) (h : toks.drop i = cur :: rest) :
    Dispenser.Val ⟨toks, (i : Nat), nest⟩ = cur.Text := by
  simp only [Dispenser.Val, Token_at nest h]

theorem Next_start (toks : List Token) (nest : Int) (h : toks ≠ []) :
    Dispenser.Next ⟨toks, -1, nest⟩ = (true, ⟨toks, (0 : Nat), nest⟩) := by
  have hl : 0 < toks.length := List.length_pos.mpr h
  have h1 : (-1 : Int) < (toks.length : Int) - 1 := by omega
  simp [Dispenser.Next, h1]

theorem Next_at {toks : List Token} {i : Nat} {cur nxt : Token} {rest : List Token}
    (nest : Int) (h : toks.drop i = cur :: nxt :: rest) :
    Dispenser.Next ⟨toks, (i : Nat), nest⟩ = (true, ⟨toks, ((i + 1 : Nat) : Int), nest⟩) := by
  have hl := drop_length h
  simp only [List.length_cons] at hl
  have h1 : (i : Int) < (toks.length : Int) - 1 := by omega
  simp [Dispenser.Next, h1]

theorem Next_end {toks : List Token} {i : Nat} {cur : Token}
    (nest : Int) (h : toks.drop i = [cur]) :
    Dispenser.Next ⟨toks, (i : Nat), nest⟩ = (false, ⟨toks, (i : Nat), nest⟩) := by
  have hl := drop_length h
  simp only [List.length_nil] at hl
  have h1 : ¬ ((i : Int) < (toks.length : Int) - 1) := by omega
  simp [Dispenser.Next, h1]

theorem nextOnSameLine_at {toks : List Token} {i : Nat} {cur nxt : Token} {rest : List Token}
    (nest : Int) (h : toks.drop i = cur :: nxt :: rest) :
    Dispenser.nextOnSameLine ⟨toks, (i : Nat), nest⟩ =
      if isNextOnNewLine cur nxt then (false, ⟨toks, (i : Nat), nest⟩)
      else (true, ⟨toks, ((i + 1 : Nat) : Int), nest⟩) := by
  have hl := drop_length h
  simp only [List.length_cons] at hl
  have hg := drop_getD h
  have hg1 := drop_getD (drop_next h)
  have h1 : ¬ ((i : Int) < 0) := by omega
  have h2 : ¬ ((i : Int) ≥ (toks.length : Int) - 1) := by omega
  have h3 : ((i : Int) + 1).toNat = i + 1 := by omega
  simp only [Dispenser.nextOnSameLine, h1, h2, if_false, Int.toNat_ofNat, hg, h3, hg1]
  cases isNextOnNewLine cur nxt <;> simp

theorem nextOnSameLine_end {toks : List Token} {i : Nat} {cur : Token}
    (nest : Int) (h : toks.drop i = [cur]) :
    Dispenser.nextOnSameLine ⟨toks, (i : Nat), nest⟩ = (false, ⟨toks, (i : Nat), nest⟩) := by
  have hl := drop_length h
  simp only [List.length_nil] at hl
  have h1 : ¬ ((i : Int) < 0) := by omega
  have h2 : (i : Int) ≥ (toks.length : Int) - 1 := by omega
  simp only [Dispenser.nextOnSameLine, h1, h2, if_false, if_true]

theorem isOpenBrace_of_text {t : Token} (h : t.Text ≠ "\x7b") : t.isOpenBrace = false := by
  simp [Token.isOpenBrace, h]

theorem isCloseBrace_of_text {t : Token} (h : t.Text ≠ "\x7d") : t.isCloseBrace = false := by
  simp [Token.isCloseBrace, h]

theorem isOpenBrace_of_key {t : Token} (h : t.Text = "token") : t.isOpenBrace = false :=
  isOpenBrace_of_text (by rw [h]; decide)

theorem isCloseBrace_of_key {t : Token} (h : t.Text = "token") : t.isCloseBrace = false :=
  isCloseBrace_of_text (by rw [h]; decide)

theorem NextArg_arg {toks : List Token} {i : Nat} {cur nxt : Token} {rest : List Token}
    (nest : Int) (h : toks.drop i = cur :: nxt :: rest)
    (hl : isNextOnNewLine cur nxt = false) (hb : nxt.isOpenBrace = false) :
    Dispenser.NextArg ⟨toks, (i : Nat), nest⟩ = (true, ⟨toks, ((i + 1 : Nat) : Int), nest⟩) := by
  simp only [Dispenser.NextArg, nextOnSameLine_at nest h, hl, Token_at nest (drop_next h), hb,
    Bool.false_eq_true, if_false, Bool.not_true]

theorem NextArg_brace {toks : List Token} {i : Nat} {cur nxt : Token} {rest : List Token}
    (nest : Int) (h : toks.drop i = cur :: nxt :: rest)
    (hl : isNextOnNewLine cur nxt = false) (hb : nxt.isOpenBrace = true) :
    Dispenser.NextArg ⟨toks, (i : Nat), nest⟩ = (false, ⟨toks, (i : Nat), nest⟩) := by
  simp only [Dispenser.NextArg, nextOnSameLine_at nest h, hl, Token_at nest (drop_next h), hb,
    Bool.false_eq_true, if_false, Bool.not_true, if_true]
  simp

theorem NextArg_newline {toks : List Token} {i : Nat} {cur nxt : Token} {rest : List Token}
    (nest : Int) (h : toks.drop i = cur :: nxt :: rest)
    (hl : isNextOnNewLine cur nxt = true) :
    Dispenser.NextArg ⟨toks, (i : Nat), nest⟩ = (false, ⟨toks, (i : Nat), nest⟩) := by
  simp [Dispenser.NextArg, nextOnSameLine_at nest h, hl]

theorem NextBlock_open {toks : List Token} {i : Nat} {cur brace key : Token}
    {rest : List Token} (nest : Int) (h : toks.drop i = cur :: brace :: key :: rest)
    (hl : isNextOnNewLine cur brace = false) (hb : brace.isOpenBrace = true)
    (hk : key.isCloseBrace = false) :
    Dispenser.NextBlock ⟨toks, (i : Nat), nest⟩ nest =
      (true, ⟨toks, ((i + 1 + 1 : Nat) : Int), nest + 1⟩) := by
  have h1 := drop_next h
  have h2 := drop_next h1
  simp only [Dispenser.NextBlock, gt_iff_lt, lt_self_iff_false, if_false,
    nextOnSameLine_at nest h, hl, Token_at nest h1, hb,
    Next_at nest h1, Token_at nest h2, hk, Bool.false_eq_true, Bool.not_true]

theorem NextBlock_key {toks : List Token} {i : Nat} {cur key : Token}
    {rest : List Token} (nest lvl : Int) (h : toks.drop i = cur :: key :: rest)
    (hn : nest > lvl) (hc : key.isCloseBrace = false) (hb : key.isOpenBrace = false) :
    Dispenser.NextBlock ⟨toks, (i : Nat), nest⟩ lvl =
      (true, ⟨toks, ((i + 1 : Nat) : Int), nest⟩) := by
  have h1 := drop_next h
  simp only [Dispenser.NextBlock, hn, if_true, Next_at nest h, Token_at nest h1, hc, hb,
    Bool.false_eq_true, if_false, Bool.not_true, decide_True]

theorem NextBlock_close {toks : List Token} {i : Nat} {cur close : Token}
    (lvl : Int) (h : toks.drop i = [cur, close]) (hc : close.isCloseBrace = true) :
    Dispenser.NextBlock ⟨toks, (i : Nat), lvl + 1⟩ lvl =
      (false, ⟨toks, ((i + 1 : Nat) : Int), lvl⟩) := by
  have h1 := drop_next h
  have hn : lvl + 1 > lvl := by omega
  simp only [Dispenser.NextBlock, hn, if_true, Next_at (lvl + 1) h, Token_at (lvl + 1) h1, hc,
    nextOnSameLine_end (lvl + 1) h1, Bool.false_eq_true, if_false, Bool.not_true,
    Bool.not_false]
  simp

/-! ## The loops of `UnmarshalCaddyfile` -/

theorem flatLines_append_cons (lines : List (Token × Token)) (after : Token)
    (rest : List Token) :
    ∃ tl, flatLines lines ++ after :: rest = firstToken lines after :: tl := by
  cases lines with
  | nil => exact ⟨rest, rfl⟩
  | cons kv more => exact ⟨kv.2 :: (flatLines more ++ after :: rest), rfl⟩

theorem flatLines_length (lines : List (Token × Token)) :
    (flatLines lines).length = 2 * lines.length := by
  induction lines with
  | nil => rfl
  | cons kv more ih => simp only [flatLines, List.length_cons, ih]; omega

/-- One well-formed `token <value>` line inside the block: the loop stores the value
and goes on from the value token. -/
theorem blockLoop_line {toks : List Token} {i : Nat} {cur key value nxt : Token}
    {rest : List Token} (fuel : Nat) (m : Middleware)
    (h : toks.drop i = cur :: key :: value :: nxt :: rest)
    (hline : tokenLine key value = true) (hnew : isNextOnNewLine value nxt = true) :
    blockLoop 0 (fuel + 1) m ⟨toks, (i : Nat), 1⟩ =
      blockLoop 0 fuel ⟨value.Text⟩ ⟨toks, ((i + 1 + 1 : Nat) : Int), 1⟩ := by
  simp only [tokenLine, Bool.and_eq_true, beq_iff_eq, Bool.not_eq_true'] at hline
  obtain ⟨⟨hk, hsame⟩, hv⟩ := hline
  have h1 := drop_next h
  have h2 := drop_next h1
  have hc := isCloseBrace_of_key hk
  have hb := isOpenBrace_of_key hk
  rw [blockLoop]
  simp only [NextBlock_key 1 0 h (by decide) hc hb, Val_at 1 h1, hk, NextArg_arg 1 h1 hsame hv,
    Val_at 1 h2, NextArg_newline 1 h2 hnew, Bool.not_true, Bool.false_eq_true, if_false,
    if_true]

/-- A run of well-formed `token <value>` lines inside the block: the loop goes through
them, one iteration a line, and is then at the last value with that value stored. -/
theorem blockLoop_lines (toks : List Token) (after : Token) (rest : List Token) :
    ∀ (lines : List (Token × Token)) (i : Nat) (cur : Token) (m : Middleware) (fuel : Nat),
      toks.drop i = cur :: (flatLines lines ++ after :: rest) →
      tokenLines lines after = true →
      blockLoop 0 (fuel + lines.length) m ⟨toks, (i : Nat), 1⟩ =
        blockLoop 0 fuel ⟨lastValue lines m.Token⟩
          ⟨toks, ((i + 2 * lines.length : Nat) : Int), 1⟩ := by
  intro lines
  induction lines with
  | nil =>
    intro i cur m fuel _ _
    rfl
  | cons kv more ih =>
    intro i cur m fuel h hok
    obtain ⟨key, value⟩ := kv
    simp only [tokenLines, Bool.and_eq_true] at hok
    obtain ⟨⟨hline, hnew⟩, hmore⟩ := hok
    obtain ⟨tl, htl⟩ := flatLines_append_cons more after rest
    have h' : toks.drop i = cur :: key :: value :: firstToken more after :: tl := by
      rw [h]; simp only [flatLines, List.cons_append, htl]
    have h2 : toks.drop (i + 1 + 1) = value :: (flatLines more ++ after :: rest) := by
      have := drop_next (drop_next h)
      simpa only [flatLines, List.cons_append] using this
    have hf : fuel + (more.length + 1) = (fuel + more.length) + 1 := by omega
    have hi : i + 2 * (more.length + 1) = i + 1 + 1 + 2 * more.length := by omega
    simp only [List.length_cons]
    rw [hf, blockLoop_line (fuel + more.length) m h' hline hnew,
      ih (i + 1 + 1) value ⟨value.Text⟩ fuel h2 hmore, hi]
    rfl

/-- The first step of the outer loop when the directive name is followed on its
line by the opening brace: the name is consumed, the brace is not an argument, and
the block loop starts. -/
theorem nextLoop_enter (fuel : Nat) (m : Middleware) (name brace : Token)
    (rest : List Token) (hopen : isNextOnNewLine name brace = false)
    (hb : brace.isOpenBrace = true) :
    nextLoop (fuel + 1) m ⟨name :: brace :: rest, -1, 0⟩ =
      match blockLoop 0 ((name :: brace :: rest).length + 1) m
          ⟨name :: brace :: rest, ((0 : Nat) : Int), 0⟩ with
      | none => none
      | some ⟨m1, d3, some e⟩ => some ⟨m1, d3, some e⟩
      | some ⟨m1, d3, none⟩ => nextLoop fuel m1 d3 := by
  have h : (name :: brace :: rest).drop 0 = name :: brace :: rest := rfl
  rw [nextLoop]
  simp only [Next_start _ 0 (List.cons_ne_nil _ _), NextArg_brace 0 h hopen hb,
    Dispenser.Nesting, Bool.not_true, Bool.false_eq_true, if_false]

/-- The outer loop ends when the cursor is at the last token. -/
theorem nextLoop_end {toks : List Token} {i : Nat} {cur : Token} (fuel : Nat)
    (m : Middleware) (nest : Int) (h : toks.drop i = [cur]) :
    nextLoop (fuel + 1) m ⟨toks, (i : Nat), nest⟩ = some ⟨m, ⟨toks, (i : Nat), nest⟩, none⟩ := by
  rw [nextLoop]
  simp only [Next_end nest h, Bool.not_false, if_true]

/-- The block loop ends at the closing brace that is the last token. -/
theorem blockLoop_close {toks : List Token} {i : Nat} {cur close : Token} (fuel : Nat)
    (m : Middleware) (h : toks.drop i = [cur, close]) (hc : close.isCloseBrace = true) :
    blockLoop 0 (fuel + 1) m ⟨toks, (i : Nat), 1⟩ =
      some ⟨m, ⟨toks, ((i + 1 : Nat) : Int), 0⟩, none⟩ := by
  rw [blockLoop]
  have := NextBlock_close 0 h hc
  simp only [zero_add] at this
  simp only [this, Bool.not_false, if_true]

/-- The first line of the block, when it is a well-formed `token <value>` line: the
loop stores the value and goes on from the value token. -/
theorem blockLoop_open_line {toks : List Token} {i : Nat} {cur brace key value nxt : Token}
    {rest : List Token} (fuel : Nat) (m : Middleware)
    (h : toks.drop i = cur :: brace :: key :: value :: nxt :: rest)
    (hopen : isNextOnNewLine cur brace = false) (hb : brace.isOpenBrace = true)
    (hline : tokenLine key value = true) (hnew : isNextOnNewLine value nxt = true) :
    blockLoop 0 (fuel + 1) m ⟨toks, (i : Nat), 0⟩ =
      blockLoop 0 fuel ⟨value.Text⟩ ⟨toks, ((i + 1 + 1 + 1 : Nat) : Int), 1⟩ := by
  simp only [tokenLine, Bool.and_eq_true, beq_iff_eq, Bool.not_eq_true'] at hline
  obtain ⟨⟨hk, hsame⟩, hv⟩ := hline
  have h1 := drop_next h
  have h2 := drop_next h1
  have h3 := drop_next h2
  have hc := isCloseBrace_of_key hk
  rw [blockLoop]
  have := NextBlock_open 0 h hopen hb hc
  simp only [zero_add] at this
  simp only [this, Val_at 1 h2, hk, NextArg_arg 1 h2 hsame hv,
    Val_at 1 h3, NextArg_newline 1 h3 hnew, Bool.not_true, Bool.false_eq_true, if_false,
    if_true]

/-- The first line of the block, when it is `token` with nothing after it on the line:
nothing is stored and the loop goes on from the key. -/
theorem blockLoop_open_bare {toks : List Token} {i : Nat} {cur brace key nxt : Token}
    {rest : List Token} (fuel : Nat) (m : Middleware)
    (h : toks.drop i = cur :: brace :: key :: nxt :: rest)
    (hopen : isNextOnNewLine cur brace = false) (hb : brace.isOpenBrace = true)
    (hk : key.Text = "token") (hnew : isNextOnNewLine key nxt = true) :
    blockLoop 0 (fuel + 1) m ⟨toks, (i : Nat), 0⟩ =
      blockLoop 0 fuel m ⟨toks, ((i + 1 + 1 : Nat) : Int), 1⟩ := by
  have h2 := drop_next (drop_next h)
  have hc := isCloseBrace_of_key hk
  rw [blockLoop]
  have := NextBlock_open 0 h hopen hb hc
  simp only [zero_add] at this
  simp only [this, Val_at 1 h2, hk, NextArg_newline 1 h2 hnew, Bool.not_true,
    Bool.false_eq_true, if_false, if_true]

/-- The first line of the block, when it is `token` with two arguments or more: the
first is stored and the second ends the parse with the argument error. -/
theorem blockLoop_open_two {toks : List Token} {i : Nat} {cur brace key v1 v2 : Token}
    {rest : List Token} (fuel : Nat) (m : Middleware)
    (h : toks.drop i = cur :: brace :: key :: v1 :: v2 :: rest)
    (hopen : isNextOnNewLine cur brace = false) (hb : brace.isOpenBrace = true)
    (hk : key.Text = "token")
    (hs1 : isNextOnNewLine key v1 = false) (hv1 : v1.isOpenBrace = false)
    (hs2 : isNextOnNewLine v1 v2 = false) (hv2 : v2.isOpenBrace = false) :
    blockLoop 0 (fuel + 1) m ⟨toks, (i : Nat), 0⟩ =
      some ⟨⟨v1.Text⟩, ⟨toks, ((i + 1 + 1 + 1 + 1 : Nat) : Int), 1⟩,
        some (Dispenser.ArgErr ⟨toks, ((i + 1 + 1 + 1 + 1 : Nat) : Int), 1⟩)⟩ := by
  have h2 := drop_next (drop_next h)
  have h3 := drop_next h2
  have hc := isCloseBrace_of_key hk
  rw [blockLoop]
  have := NextBlock_open 0 h hopen hb hc
  simp only [zero_add] at this
  simp only [this, Val_at 1 h2, hk, NextArg_arg 1 h2 hs1 hv1, Val_at 1 h3,
    NextArg_arg 1 h3 hs2 hv2, Bool.not_true, Bool.false_eq_true, if_false, if_true]

theorem drop_after_lines (toks : List Token) (tail : List Token) :
    ∀ (lines : List (Token × Token)) (i : Nat) (cur : Token),
      toks.drop i = cur :: (flatLines lines ++ tail) →
      ∃ c, toks.drop (i + 2 * lines.length) = c :: tail := by
  intro lines
  induction lines with
  | nil => intro i cur h; exact ⟨cur, h⟩
  | cons kv more ih =>
    intro i cur h
    obtain ⟨key, value⟩ := kv
    have h2 : toks.drop (i + 1 + 1) = value :: (flatLines more ++ tail) := by
      have := drop_next (drop_next h)
      simpa only [flatLines, List.cons_append] using this
    obtain ⟨c, hc⟩ := ih (i + 1 + 1) value h2
    have hi : i + 2 * (more.length + 1) = i + 1 + 1 + 2 * more.length := by omega
    exact ⟨c, by rw [List.length_cons, hi]; exact hc⟩

/-- A block that starts with one well-formed `token <value>` line or more: the loop
goes through the lines, one iteration a line, and is then at the last value with that
value stored. -/
theorem blockLoop_open_lines (name brace after : Token) (rest : List Token)
    (line : Token × Token) (more : List (Token × Token)) (fuel : Nat) (m : Middleware)
    (hopen : isNextOnNewLine name brace = false) (hb : brace.isOpenBrace = true)
    (hlines : tokenLines (line :: more) after = true) :
    blockLoop 0 (fuel + (more.length + 1)) m
        ⟨name :: brace :: (flatLines (line :: more) ++ after :: rest), ((0 : Nat) : Int), 0⟩ =
      blockLoop 0 fuel ⟨lastValue (line :: more) m.Token⟩
        ⟨name :: brace :: (flatLines (line :: more) ++ after :: rest),
          ((1 + 2 * (more.length + 1) : Nat) : Int), 1⟩ := by
  obtain ⟨key, value⟩ := line
  simp only [tokenLines, Bool.and_eq_true] at hlines
  obtain ⟨⟨hline, hnew⟩, hmore⟩ := hlines
  obtain ⟨tl, htl⟩ := flatLines_append_cons more after rest
  have h : (name :: brace :: (flatLines ((key, value) :: more) ++ after :: rest)).drop 0 =
      name :: brace :: key :: value :: firstToken more after :: tl := by
    simp only [List.drop_zero, flatLines, List.cons_append, htl]
  have h3 : (name :: brace :: (flatLines ((key, value) :: more) ++ after :: rest)).drop
      (0 + 1 + 1 + 1) = value :: (flatLines more ++ after :: rest) := by
    simp only [flatLines, List.cons_append, List.drop_succ_cons, List.drop_zero, zero_add]
  have hf : fuel + (more.length + 1) = (fuel + more.length) + 1 := by omega
  have hi : 1 + 2 * (more.length + 1) = 0 + 1 + 1 + 1 + 2 * more.length := by omega
  rw [hf, blockLoop_open_line (fuel + more.length) m h hopen hb hline hnew,
    blockLoop_lines _ after rest more (0 + 1 + 1 + 1) value ⟨value.Text⟩ fuel h3 hmore, hi]
  rfl

/-- A block of one well-formed `token <value>` line or more, closed by the closing
brace: the parse ends without error at the closing brace, with the last value stored. -/
theorem UnmarshalCaddyfile_token_lines (m : Middleware) (name brace close : Token)
    (line : Token × Token) (more : List (Token × Token))
    (hopen : isNextOnNewLine name brace = false) (hb : brace.isOpenBrace = true)
    (hlines : tokenLines (line :: more) close = true) (hclose : close.isCloseBrace = true) :
    Middleware.UnmarshalCaddyfile m
        (NewDispenser (name :: brace :: (flatLines (line :: more) ++ [close]))) =
      some ⟨⟨lastValue (line :: more) m.Token⟩,
        ⟨name :: brace :: (flatLines (line :: more) ++ [close]),
          ((1 + 2 * (more.length + 1) + 1 : Nat) : Int), 0⟩, none⟩ := by
  have h0 : (name :: brace :: (flatLines (line :: more) ++ [close])).drop (0 + 1) =
      brace :: (flatLines (line :: more) ++ [close]) := rfl
  obtain ⟨c, hc⟩ := drop_after_lines _ [close] (line :: more) (0 + 1) brace h0
  have hi : 0 + 1 + 2 * (line :: more).length = 1 + 2 * (more.length + 1) := by
    simp only [List.length_cons]
  rw [hi] at hc
  have hlen : (name :: brace :: (flatLines (line :: more) ++ [close])).length + 1 =
      (more.length + 4 + 1) + (more.length + 1) := by
    simp only [List.length_cons, List.length_append, flatLines_length, List.length_nil]
    omega
  have hlen2 : (name :: brace :: (flatLines (line :: more) ++ [close])).length =
      (2 * more.length + 4) + 1 := by
    simp only [List.length_cons, List.length_append, flatLines_length, List.length_nil]
    omega
  simp only [Middleware.UnmarshalCaddyfile, NewDispenser]
  rw [nextLoop_enter _ m name brace _ hopen hb, hlen,
    blockLoop_open_lines name brace close [] line more _ m hopen hb hlines,
    blockLoop_close _ _ hc hclose]
  simp only []
  rw [hlen2, nextLoop_end _ _ 0 (drop_next hc)]

theorem lastValue_eq_getLast (line : Token × Token) (more : List (Token × Token))
    (init : String) :
    lastValue (line :: more) init = ((line :: more).getLast (List.cons_ne_nil _ _)).2.Text := by
  induction more generalizing line init with
  | nil => rfl
  | cons l2 rest ih =>
    have := ih l2 line.2.Text
    simp only [lastValue] at this ⊢
    rw [this, List.getLast_cons (List.cons_ne_nil _ _)]

theorem Next_bounds (d : Dispenser) :
    d.Next.2.tokens = d.tokens ∧ d.cursor ≤ d.Next.2.cursor ∧
    (d.cursor ≤ (d.tokens.length : Int) - 1 → d.Next.2.cursor ≤ (d.tokens.length : Int) - 1) ∧
    (d.Next.1 = true → d.cursor < d.Next.2.cursor) := by
  unfold Dispenser.Next
  split_ifs
  · simp
    omega
  · simp

theorem nextOnSameLine_bounds (d : Dispenser) (h0 : 0 ≤ d.cursor) :
    d.nextOnSameLine.2.tokens = d.tokens ∧ d.cursor ≤ d.nextOnSameLine.2.cursor ∧
    (d.cursor ≤ (d.tokens.length : Int) - 1 →
      d.nextOnSameLine.2.cursor ≤ (d.tokens.length : Int) - 1) ∧
    (d.nextOnSameLine.1 = true → d.cursor < d.nextOnSameLine.2.cursor) := by
  unfold Dispenser.nextOnSameLine
  simp only []
  split_ifs <;> simp <;> omega

theorem NextArg_bounds (d : Dispenser) (h0 : 0 ≤ d.cursor) :
    d.NextArg.2.tokens = d.tokens ∧ d.cursor ≤ d.NextArg.2.cursor ∧
    (d.cursor ≤ (d.tokens.length : Int) - 1 →
      d.NextArg.2.cursor ≤ (d.tokens.length : Int) - 1) := by
  have hS := nextOnSameLine_bounds d h0
  unfold Dispenser.NextArg
  rcases hs : d.nextOnSameLine with ⟨same, d1⟩
  rw [hs] at hS
  simp only at hS ⊢
  obtain ⟨ht, hc, hle, hlt⟩ := hS
  cases same
  · simp only [Bool.not_false, if_true]
    exact ⟨ht, hc, hle⟩
  · have hlt := hlt rfl
    simp only [Bool.not_true, Bool.false_eq_true, if_false]
    split_ifs
    · refine ⟨ht, ?_, ?_⟩
      · show d.cursor ≤ d1.cursor - 1
        omega
      · intro hb
        have := hle hb
        show d1.cursor - 1 ≤ _
        omega
    · exact ⟨ht, hc, hle⟩

theorem NextBlock_bounds (d : Dispenser) (lvl : Int) (h0 : 0 ≤ d.cursor) :
    (d.NextBlock lvl).2.tokens = d.tokens ∧ d.cursor ≤ (d.NextBlock lvl).2.cursor ∧
    (d.cursor ≤ (d.tokens.length : Int) - 1 →
      (d.NextBlock lvl).2.cursor ≤ (d.tokens.length : Int) - 1) ∧
    ((d.NextBlock lvl).1 = true → d.cursor < (d.NextBlock lvl).2.cursor) := by
  unfold Dispenser.NextBlock
  by_cases hn : d.nesting > lvl
  · simp only [hn, if_true]
    have hN := Next_bounds d
    rcases hnx : d.Next with ⟨ok, d1⟩
    rw [hnx] at hN
    simp only at hN ⊢
    obtain ⟨ht, hc, hle, hlt⟩ := hN
    cases ok
    · simp only [Bool.not_false, if_true]
      exact ⟨ht, hc, hle, by simp⟩
    · have hlt := hlt rfl
      simp only [Bool.not_true, Bool.false_eq_true, if_false]
      have hS1 := nextOnSameLine_bounds d1 (by omega)
      rw [ht] at hS1
      by_cases hv : d1.Token.isCloseBrace = true
      · simp only [hv, if_true]
        rcases hs : d1.nextOnSameLine with ⟨same, d2⟩
        rw [hs] at hS1
        simp only at hS1 ⊢
        obtain ⟨ht2, hc2, hle2, -⟩ := hS1
        cases same
        · simp only [Bool.not_false, if_true]
          exact ⟨ht2, by omega, fun hb => hle2 (by omega), fun _ => by omega⟩
        · simp only [Bool.not_true, Bool.false_eq_true, if_false]
          have hS2 := nextOnSameLine_bounds d2 (by omega)
          rw [ht2] at hS2
          by_cases hv2 : d2.Token.isOpenBrace = true
          · simp only [hv2, if_true]
            rcases hs2 : d2.nextOnSameLine with ⟨same2, d3⟩
            rw [hs2] at hS2
            simp only at hS2 ⊢
            obtain ⟨ht3, hc3, hle3, -⟩ := hS2
            cases same2
            · simp only [Bool.not_false, if_true]
              exact ⟨ht3, by omega, fun hb => hle3 (by omega), fun _ => by omega⟩
            · simp only [Bool.not_true, Bool.false_eq_true, if_false]
              exact ⟨ht3, by omega, fun hb => hle3 (by omega), fun _ => by omega⟩
          · simp only [hv2, if_false, Bool.false_eq_true]
            exact ⟨ht2, by omega, fun hb => hle2 (by omega), fun _ => by omega⟩
      · simp only [hv, if_false, Bool.false_eq_true]
        by_cases hv2 : d1.Token.isOpenBrace = true
        · simp only [hv2, if_true]
          rcases hs2 : d1.nextOnSameLine with ⟨same2, d3⟩
          rw [hs2] at hS1
          simp only at hS1 ⊢
          obtain ⟨ht3, hc3, hle3, -⟩ := hS1
          cases same2
          · simp only [Bool.not_false, if_true]
            exact ⟨ht3, by omega, fun hb => hle3 (by omega), fun _ => by omega⟩
          · simp only [Bool.not_true, Bool.false_eq_true, if_false]
            exact ⟨ht3, by omega, fun hb => hle3 (by omega), fun _ => by omega⟩
        · simp only [hv2, if_false, Bool.false_eq_true]
          exact ⟨ht, by omega, fun hb => hle (by omega), fun _ => by omega⟩
  · simp only [hn, if_false]
    have hS := nextOnSameLine_bounds d h0
    rcases hs : d.nextOnSameLine with ⟨same, d1⟩
    rw [hs] at hS
    simp only at hS ⊢
    obtain ⟨ht, hc, hle, hlt⟩ := hS
    cases same
    · simp only [Bool.not_false, if_true]
      exact ⟨ht, hc, hle, by simp⟩
    · have hlt := hlt rfl
      simp only [Bool.not_true, Bool.false_eq_true, if_false]
      have hN := Next_bounds d1
      rw [ht] at hN
      obtain ⟨ht2, hc2, hle2, -⟩ := hN
      split_ifs
      · refine ⟨ht, ?_, ?_, by simp⟩
        · show d.cursor ≤ d1.cursor - 1
          omega
        · intro hb
          have := hle hb
          show d1.cursor - 1 ≤ _
          omega
      · refine ⟨ht2, ?_, fun hb => hle2 (hle hb), by simp⟩
        show d.cursor ≤ d1.Next.2.cursor
        omega
      · refine ⟨ht2, ?_, fun hb => hle2 (hle hb), fun _ => ?_⟩
        · show d.cursor ≤ d1.Next.2.cursor
          omega
        · show d.cursor < d1.Next.2.cursor
          omega

/-- The inner loop returns: with more iterations allowed than there are tokens after
the cursor, it ends, and leaves the cursor at or after where it was, inside the
token list. -/
theorem blockLoop_returns (lvl : Int) :
    ∀ (fuel : Nat) (m : Middleware) (d : Dispenser),
      0 ≤ d.cursor → d.cursor ≤ (d.tokens.length : Int) - 1 →
      (d.tokens.length : Int) - 1 - d.cursor < fuel →
      ∃ p, blockLoop lvl fuel m d = some p ∧ p.d.tokens = d.tokens ∧
        d.cursor ≤ p.d.cursor ∧ p.d.cursor ≤ (d.tokens.length : Int) - 1 := by
  intro fuel
  induction fuel with
  | zero =>
    intro m d h0 h1 h2
    exfalso
    omega
  | succ n ih =>
    intro m d h0 h1 h2
    have hB := NextBlock_bounds d lvl h0
    rw [blockLoop]
    rcases hnb : d.NextBlock lvl with ⟨more, d1⟩
    rw [hnb] at hB
    simp only at hB ⊢
    obtain ⟨ht, hc, hle, hlt⟩ := hB
    have hle := hle h1
    cases more
    · simp only [Bool.not_false, if_true]
      exact ⟨_, rfl, ht, hc, hle⟩
    · have hlt := hlt rfl
      simp only [Bool.not_true, Bool.false_eq_true, if_false]
      by_cases hv : d1.Val = "token"
      · simp only [hv, if_true]
        have hA1 := NextArg_bounds d1 (by omega)
        rcases ha1 : d1.NextArg with ⟨a1, d2⟩
        rw [ha1] at hA1
        simp only at hA1 ⊢
        obtain ⟨ht2, hc2, hle2⟩ := hA1
        rw [ht] at ht2 hle2
        have hle2 := hle2 hle
        have hA2 := NextArg_bounds d2 (by omega)
        rcases ha2 : d2.NextArg with ⟨a2, d3⟩
        rw [ha2] at hA2
        simp only at hA2 ⊢
        obtain ⟨ht3, hc3, hle3⟩ := hA2
        rw [ht2] at ht3 hle3
        have hle3 := hle3 hle2
        cases a2
        · simp only [Bool.false_eq_true, if_false]
          obtain ⟨p, hp, hpt, hpc, hpl⟩ := ih (if a1 = true then { m with Token := d2.Val } else m)
            d3 (by omega) (by rw [ht3]; exact hle3) (by rw [ht3]; omega)
          rw [ht3] at hpt hpl
          exact ⟨p, hp, hpt, by omega, hpl⟩
        · simp only [if_true]
          exact ⟨_, rfl, ht3, by simp only; omega, hle3⟩
      · simp only [hv, if_false]
        exact ⟨_, rfl, ht, hc, hle⟩

theorem Next_true_le (d : Dispenser) (h : d.Next.1 = true) :
    d.Next.2.cursor ≤ (d.tokens.length : Int) - 1 := by
  unfold Dispenser.Next at h ⊢
  split_ifs at h ⊢ with hc
  simp only
  omega

/-- The outer loop returns: with at least one iteration allowed, and more than there
are tokens after the cursor, it ends. -/
theorem nextLoop_returns :
    ∀ (fuel : Nat) (m : Middleware) (d : Dispenser),
      -1 ≤ d.cursor → 1 ≤ fuel → (d.tokens.length : Int) - 1 - d.cursor < fuel →
      ∃ p, nextLoop fuel m d = some p := by
  intro fuel
  induction fuel with
  | zero =>
    intro m d _ h1 _
    exfalso
    omega
  | succ n ih =>
    intro m d h0 _ h2
    have hN := Next_bounds d
    have hT := Next_true_le d
    rw [nextLoop]
    rcases hnx : d.Next with ⟨more, d1⟩
    rw [hnx] at hN hT
    simp only at hN hT ⊢
    obtain ⟨ht, hc, -, hlt⟩ := hN
    cases more
    · simp only [Bool.not_false, if_true]
      exact ⟨_, rfl⟩
    · have hlt := hlt rfl
      have hle := hT rfl
      simp only [Bool.not_true, Bool.false_eq_true, if_false]
      have hA := NextArg_bounds d1 (by omega)
      rcases ha : d1.NextArg with ⟨arg, d2⟩
      rw [ha] at hA
      simp only at hA ⊢
      obtain ⟨ht2, hc2, hle2⟩ := hA
      rw [ht] at ht2 hle2
      have hle2 := hle2 hle
      cases arg
      · simp only [Bool.false_eq_true, if_false]
        obtain ⟨p, hp, hpt, hpc, hpl⟩ := blockLoop_returns d2.Nesting (d2.tokens.length + 1) m d2
          (by omega) (by rw [ht2]; exact hle2) (by push_cast; omega)
        rw [ht2] at hpt hpl
        rw [hp]
        obtain ⟨pm, pd, pe⟩ := p
        simp only at hpt hpc hpl
        cases pe with
        | some e => exact ⟨_, rfl⟩
        | none =>
          simp only []
          exact ih pm pd (by omega) (by omega) (by rw [hpt]; omega)
      · simp only [if_true]
        exact ⟨_, rfl⟩

/-- The method `UnmarshalCaddyfile` returns on every dispenser whose cursor is at a token or
just before the first one: the iterations it allows are never used up. -/
theorem UnmarshalCaddyfile_returns (m : Middleware) (d : Dispenser) (h : -1 ≤ d.cursor) :
    ∃ p, m.UnmarshalCaddyfile d = some p := by
  unfold Middleware.UnmarshalCaddyfile
  exact nextLoop_returns _ m d h (by omega) (by push_cast; omega)

theorem inexact_ne_expected (t a : String)
    (h : a ∈ ["", t, "bearer " ++ t, " Bearer " ++ t, "Bearer " ++ t ++ " ",
              "Bearer  " ++ t, "Basic " ++ t]) :
    a ≠ "Bearer " ++ t := by
  have h7 : "Bearer ".length = 7 := by decide
  have h8 : "Bearer  ".length = 8 := by decide
  have h1 : " ".length = 1 := by decide
  simp only [List.mem_cons, List.mem_singleton, List.not_mem_nil, or_false] at h
  rcases h with h | h | h | h | h | h | h <;> subst h <;> intro e
  · have := congrArg String.length e
    simp [String.length_append] at this
    omega
  · have := congrArg String.length e
    simp [String.length_append] at this
    omega
  · have := congrArg String.data e
    simp at this
  · have := congrArg String.data e
    simp at this
  · have := congrArg String.length e
    simp [String.length_append] at this
    omega
  · have := congrArg String.length e
    simp [String.length_append] at this
    omega
  · have := congrArg String.data e
    simp at this

/-! ## Claims about request gating and setup -/

/-- C1: when the Authorization header is exactly "Bearer " followed by the configured
token, ServeHTTP makes one call, the next handler with the same writer and the same
request, writes no status and sets no header of its own, and returns the writer state
and the error (or nil) of the next handler unchanged. -/
theorem C1_match_passes_through (t : String) (w : ResponseWriter) (r : Request)
    (next : Handler) (h : r.Header.Get "Authorization" = "Bearer " ++ t) :
    (Middleware.ServeHTTP ⟨t⟩ w r next).trace = [Event.nextServeHTTP w r] ∧
    (Middleware.ServeHTTP ⟨t⟩ w r next).w = (next w r).1 ∧
    (Middleware.ServeHTTP ⟨t⟩ w r next).err = (next w r).2 := by
  rw [ServeHTTP_pass ⟨t⟩ w r next h]
  exact ⟨rfl, rfl, rfl⟩

theorem C1_match_passes_through_witness :
    "s3cr3t" ≠ "" ∧
    (Middleware.ServeHTTP ⟨"s3cr3t"⟩ freshWriter (requestWithAuth "Bearer s3cr3t")
        sampleNext).trace
      = [Event.nextServeHTTP freshWriter (requestWithAuth "Bearer s3cr3t")] ∧
    (Middleware.ServeHTTP ⟨"s3cr3t"⟩ freshWriter (requestWithAuth "Bearer s3cr3t")
        sampleNext).w
      = (sampleNext freshWriter (requestWithAuth "Bearer s3cr3t")).1 ∧
    (Middleware.ServeHTTP ⟨"s3cr3t"⟩ freshWriter (requestWithAuth "Bearer s3cr3t")
        sampleNext).err
      = (sampleNext freshWriter (requestWithAuth "Bearer s3cr3t")).2 :=
  ⟨by decide,
   C1_match_passes_through "s3cr3t" freshWriter (requestWithAuth "Bearer s3cr3t")
     sampleNext (by decide)⟩

/-- C2: when the Authorization header value (the empty string for an absent header)
differs from "Bearer " followed by the configured token, ServeHTTP makes exactly two
calls, setting the header WWW-Authenticate to `Bearer realm="Restricted"` and writing
status 401; the next handler is not called, the body is left as it was, and the
returned error is nil. -/
theorem C2_mismatch_rejects (t : String) (w : ResponseWriter) (r : Request)
    (next : Handler) (h : r.Header.Get "Authorization" ≠ "Bearer " ++ t) :
    (Middleware.ServeHTTP ⟨t⟩ w r next).trace =
      [Event.headerSet "WWW-Authenticate" "Bearer realm=\"Restricted\"",
       Event.writeHeader 401] ∧
    (Middleware.ServeHTTP ⟨t⟩ w r next).calledNext = false ∧
    (Middleware.ServeHTTP ⟨t⟩ w r next).err = none ∧
    (Middleware.ServeHTTP ⟨t⟩ w r next).w.header.Get "WWW-Authenticate"
      = "Bearer realm=\"Restricted\"" ∧
    (Middleware.ServeHTTP ⟨t⟩ w r next).w.body = w.body ∧
    (w.status = none → (Middleware.ServeHTTP ⟨t⟩ w r next).w.status = some 401) := by
  rw [ServeHTTP_reject ⟨t⟩ w r next h]
  refine ⟨rfl, rfl, rfl, ?_, ?_, ?_⟩
  · simp only [WriteHeader_header, ResponseWriter.HeaderSet]
    exact Header.Get_Set _ _ _
  · simp only [WriteHeader_body, ResponseWriter.HeaderSet]
  · intro hs
    exact WriteHeader_status _ _ hs

theorem C2_mismatch_rejects_witness :
    (Middleware.ServeHTTP ⟨"s3cr3t"⟩ freshWriter (requestWithAuth "Bearer wrong")
        sampleNext).trace =
      [Event.headerSet "WWW-Authenticate" "Bearer realm=\"Restricted\"",
       Event.writeHeader 401] ∧
    (Middleware.ServeHTTP ⟨"s3cr3t"⟩ freshWriter (requestWithAuth "Bearer wrong")
        sampleNext).w.status = some 401 :=
  have h := C2_mismatch_rejects "s3cr3t" freshWriter (requestWithAuth "Bearer wrong")
    sampleNext (by decide)
  ⟨h.1, h.2.2.2.2.2 rfl⟩

/-- C3: the match is exact. For every token t, the empty string included, a request
whose Authorization value is empty (which is what an absent header reads as), t
without a scheme, "bearer " ++ t, " Bearer " ++ t, "Bearer " ++ t ++ " ",
"Bearer  " ++ t or "Basic " ++ t is rejected: header WWW-Authenticate set, status 401
written, next handler not called, nil error. -/
theorem C3_inexact_values_rejected (t : String) :
    (∀ hdr : Header, hdr.lookup "Authorization" = none → hdr.Get "Authorization" = "") ∧
    ∀ a ∈ ["", t, "bearer " ++ t, " Bearer " ++ t, "Bearer " ++ t ++ " ",
           "Bearer  " ++ t, "Basic " ++ t],
      ∀ (w : ResponseWriter) (r : Request) (next : Handler),
        r.Header.Get "Authorization" = a →
        Middleware.ServeHTTP ⟨t⟩ w r next =
          { recv := ⟨t⟩,
            w := (w.HeaderSet "WWW-Authenticate" "Bearer realm=\"Restricted\"").WriteHeader 401,
            err := none,
            trace := [Event.headerSet "WWW-Authenticate" "Bearer realm=\"Restricted\"",
                      Event.writeHeader 401] } := by
  constructor
  · intro hdr hl
    have hc : CanonicalMIMEHeaderKey "Authorization" = "Authorization" := by decide
    simp [Header.Get, hc, hl]
  · intro a ha w r next hr
    apply ServeHTTP_reject
    rw [hr]
    exact inexact_ne_expected t a ha

theorem C3_inexact_values_rejected_witness :
    (Middleware.ServeHTTP ⟨"s3cr3t"⟩ freshWriter (requestWithAuth "bearer s3cr3t")
        sampleNext).trace =
      [Event.headerSet "WWW-Authenticate" "Bearer realm=\"Restricted\"",
       Event.writeHeader 401] :=
  congrArg Outcome.trace
    ((C3_inexact_values_rejected "s3cr3t").2 ("bearer " ++ "s3cr3t") (by simp)
      freshWriter (requestWithAuth "bearer s3cr3t") sampleNext (by decide))

/-- C4: for every raw token s and every placeholder resolution resolve, setup
(Provision, then Validate) ends with an error exactly when resolve s is empty;
Provision returns no error; and when setup succeeds the stored Token is resolve s,
which is not empty. -/
theorem C4_setup_fails_iff_empty (resolve : String → String) (s : String) :
    ((setup resolve ⟨s⟩).2 ≠ none ↔ resolve s = "") ∧
    (Middleware.Provision resolve ⟨s⟩).2 = none ∧
    ((setup resolve ⟨s⟩).2 = none →
      (setup resolve ⟨s⟩).1.Token = resolve s ∧ (setup resolve ⟨s⟩).1.Token ≠ "") := by
  by_cases h : resolve s = "" <;>
    simp [setup, Middleware.Provision, Middleware.Validate, h]

theorem C4_setup_fails_iff_empty_witness :
    (setup (fun s => if s = "\x7benv.API_TOKEN\x7d" then "s3cr3t" else s)
      ⟨"\x7benv.API_TOKEN\x7d"⟩).1.Token = "s3cr3t" :=
  ((C4_setup_fails_iff_empty (fun s => if s = "\x7benv.API_TOKEN\x7d" then "s3cr3t" else s)
    "\x7benv.API_TOKEN\x7d").2.2 (by decide)).1.trans (by decide)

/-- C9: request evaluation is stateless. ServeHTTP leaves the receiver, and so the
Token, as it was, also over any sequence of earlier requests; and whether the next
handler is called is decided by the Authorization value and the token alone, so two
requests with the same Authorization value take the same branch whatever their
method, path, body and other headers, the writers, the next handlers and the requests
served before. -/
theorem C9_stateless (m : Middleware) :
    (∀ (w : ResponseWriter) (r : Request) (next : Handler),
      (m.ServeHTTP w r next).recv = m) ∧
    (∀ calls : List (ResponseWriter × Request × Handler), (serveAll m calls).1 = m) ∧
    (∀ (calls : List (ResponseWriter × Request × Handler)) (w : ResponseWriter)
       (r : Request) (next : Handler),
      ((serveAll m calls).1.ServeHTTP w r next).calledNext
        = decide (r.Header.Get "Authorization" = "Bearer " ++ m.Token)) ∧
    (∀ (calls1 calls2 : List (ResponseWriter × Request × Handler))
       (w1 w2 : ResponseWriter) (r1 r2 : Request) (next1 next2 : Handler),
      r1.Header.Get "Authorization" = r2.Header.Get "Authorization" →
      ((serveAll m calls1).1.ServeHTTP w1 r1 next1).calledNext
        = ((serveAll m calls2).1.ServeHTTP w2 r2 next2).calledNext) := by
  have branch : ∀ (w : ResponseWriter) (r : Request) (next : Handler),
      (m.ServeHTTP w r next).calledNext
        = decide (r.Header.Get "Authorization" = "Bearer " ++ m.Token) := by
    intro w r next
    by_cases h : r.Header.Get "Authorization" = "Bearer " ++ m.Token
    · rw [ServeHTTP_pass m w r next h]; simp [Outcome.calledNext, h]
    · rw [ServeHTTP_reject m w r next h]; simp [Outcome.calledNext, h]
  refine ⟨?_, serveAll_recv m, ?_, ?_⟩
  · intro w r next
    by_cases h : r.Header.Get "Authorization" = "Bearer " ++ m.Token
    · rw [ServeHTTP_pass m w r next h]
    · rw [ServeHTTP_reject m w r next h]
  · intro calls w r next
    rw [serveAll_recv]; exact branch w r next
  · intro calls1 calls2 w1 w2 r1 r2 next1 next2 h
    rw [serveAll_recv, serveAll_recv, branch, branch, h]

theorem C9_stateless_witness :
    ((serveAll ⟨"s3cr3t"⟩ [(freshWriter, requestWithAuth "Bearer wrong", sampleNext)]).1.ServeHTTP
        freshWriter (requestWithAuth "Bearer s3cr3t") sampleNext).calledNext
      = (Middleware.ServeHTTP ⟨"s3cr3t"⟩ (freshWriter.WriteHeader 500)
          { Method := "POST", URL := "/admin", Body := "payload",
            Header := Header.Set (Header.Set [] "Accept" "text/html")
              "authorization" "Bearer s3cr3t" }
          (fun w _ => (w, none))).calledNext :=
  (C9_stateless ⟨"s3cr3t"⟩).2.2.2
    [(freshWriter, requestWithAuth "Bearer wrong", sampleNext)] []
    freshWriter (freshWriter.WriteHeader 500)
    (requestWithAuth "Bearer s3cr3t")
    { Method := "POST", URL := "/admin", Body := "payload",
      Header := Header.Set (Header.Set [] "Accept" "text/html")
        "authorization" "Bearer s3cr3t" }
    sampleNext (fun w _ => (w, none)) (by decide)

/-- C10: ServeHTTP does not check that the token is non-empty. For the Middleware with
the empty Token, on which Validate returns an error, a request whose Authorization
value is exactly "Bearer " is passed to the next handler and not rejected; so it is
not the case that every request is rejected under an empty token. -/
theorem C10_empty_token_not_enforced :
    Middleware.Validate ⟨""⟩ = some "Token is empty" ∧
    (∀ (w : ResponseWriter) (r : Request) (next : Handler),
      r.Header.Get "Authorization" = "Bearer " →
      Middleware.ServeHTTP ⟨""⟩ w r next =
        { recv := ⟨""⟩, w := (next w r).1, err := (next w r).2,
          trace := [Event.nextServeHTTP w r] }) ∧
    ¬ (∀ (w : ResponseWriter) (r : Request) (next : Handler),
      (Middleware.ServeHTTP ⟨""⟩ w r next).calledNext = false) := by
  refine ⟨by decide, ?_, ?_⟩
  · intro w r next h
    exact ServeHTTP_pass ⟨""⟩ w r next (by simpa using h)
  · intro hall
    have := hall freshWriter (requestWithAuth "Bearer ") sampleNext
    revert this
    decide

theorem C10_empty_token_not_enforced_witness :
    (Middleware.ServeHTTP ⟨""⟩ freshWriter (requestWithAuth "Bearer ") sampleNext).w.status
      = some 200 :=
  (congrArg (fun o => o.w.status)
    (C10_empty_token_not_enforced.2.1 freshWriter (requestWithAuth "Bearer ") sampleNext
      (by decide))).trans (by decide)


/-! ## Braces as delimiters and as tokens

An unquoted brace is a delimiter of the block: it is never read as a value or as a
key. A quoted brace is a token like any other. -/

/-- An unquoted opening brace after `token` opens a block: it is not stored as a value,
and the parse ends with an error at it. -/
theorem unquoted_open_brace_is_not_a_value :
    Middleware.UnmarshalCaddyfile ⟨""⟩
        (NewDispenser [word 1 "apipass", word 1 "\x7b", word 2 "token", word 2 "\x7b",
          word 3 "\x7d"]) =
      some ⟨⟨""⟩,
        ⟨[word 1 "apipass", word 1 "\x7b", word 2 "token", word 2 "\x7b", word 3 "\x7d"],
          3, 2⟩,
        some "unrecognized subdirective '\x7b', at Caddyfile:2"⟩ := by
  decide

/-- An unquoted closing brace at the start of a line closes the block: it is not read as
a key, and the parse ends without error. -/
theorem unquoted_close_brace_is_not_a_key :
    Middleware.UnmarshalCaddyfile ⟨""⟩
        (NewDispenser [word 1 "apipass", word 1 "\x7b", word 2 "token", quoted 2 "a",
          word 3 "\x7d"]) =
      some ⟨⟨"a"⟩,
        ⟨[word 1 "apipass", word 1 "\x7b", word 2 "token", quoted 2 "a", word 3 "\x7d"],
          4, 0⟩,
        none⟩ := by
  decide

/-- An unquoted opening brace at the start of a later line, with a token after it on
the line, is stepped over: it is not read as a key, and the token after it is. -/
theorem unquoted_open_brace_is_not_a_key :
    Middleware.UnmarshalCaddyfile ⟨""⟩
        (NewDispenser [word 1 "apipass", word 1 "\x7b", word 2 "token", quoted 2 "a",
          word 3 "\x7b", word 3 "token", quoted 3 "b", word 4 "\x7d"]) =
      some ⟨⟨"b"⟩,
        ⟨[word 1 "apipass", word 1 "\x7b", word 2 "token", quoted 2 "a",
          word 3 "\x7b", word 3 "token", quoted 3 "b", word 4 "\x7d"], 7, 0⟩,
        none⟩ := by
  decide

/-- A quoted opening brace after `token` is a value: it is stored, without error. -/
theorem quoted_open_brace_is_a_value :
    Middleware.UnmarshalCaddyfile ⟨""⟩
        (NewDispenser [word 1 "apipass", word 1 "\x7b", word 2 "token", quoted 2 "\x7b",
          word 3 "\x7d"]) =
      some ⟨⟨"\x7b"⟩,
        ⟨[word 1 "apipass", word 1 "\x7b", word 2 "token", quoted 2 "\x7b", word 3 "\x7d"],
          4, 0⟩,
        none⟩ := by
  decide

/-- A quoted closing brace at the start of a line is a key: the parse ends with the
error that names it. -/
theorem quoted_close_brace_is_a_key :
    Middleware.UnmarshalCaddyfile ⟨""⟩
        (NewDispenser [word 1 "apipass", word 1 "\x7b", word 2 "token", quoted 2 "a",
          quoted 3 "\x7d", word 4 "\x7d"]) =
      some ⟨⟨"a"⟩,
        ⟨[word 1 "apipass", word 1 "\x7b", word 2 "token", quoted 2 "a",
          quoted 3 "\x7d", word 4 "\x7d"], 4, 1⟩,
        some "unrecognized subdirective '\x7d', at Caddyfile:3"⟩ := by
  decide

/-- Two values after `token`, the first a quoted opening brace: the first is stored and
the second gives the argument error. -/
theorem quoted_open_brace_then_second_value :
    Middleware.UnmarshalCaddyfile ⟨""⟩
        (NewDispenser [word 1 "apipass", word 1 "\x7b", word 2 "token", quoted 2 "\x7b",
          quoted 2 "token", word 3 "\x7d"]) =
      some ⟨⟨"\x7b"⟩,
        ⟨[word 1 "apipass", word 1 "\x7b", word 2 "token", quoted 2 "\x7b",
          quoted 2 "token", word 3 "\x7d"], 4, 1⟩,
        some "wrong argument count or unexpected line ending after 'token', at Caddyfile:2"⟩ := by
  decide

/-- A quoted opening brace on the line of the directive name is an argument: the parse
ends with the argument error at it. -/
theorem quoted_open_brace_after_name :
    Middleware.UnmarshalCaddyfile ⟨""⟩
        (NewDispenser [word 1 "apipass", quoted 1 "\x7b", word 2 "token", quoted 2 "a",
          word 3 "\x7d"]) =
      some ⟨⟨""⟩,
        ⟨[word 1 "apipass", quoted 1 "\x7b", word 2 "token", quoted 2 "a", word 3 "\x7d"],
          1, 0⟩,
        some "wrong argument count or unexpected line ending after '\x7b', at Caddyfile:1"⟩ := by
  decide

/-! ## Claims about Caddyfile parsing -/

/-- C5: when the directive name (the first token, `apipass`) is followed on its line
by a token that is not the opening brace, UnmarshalCaddyfile returns the argument
error at that token, with the receiver untouched, whatever tokens follow. -/
theorem C5_inline_argument_error (m : Middleware) (name arg : Token) (rest : List Token)
    (hsame : isNextOnNewLine name arg = false) (hb : arg.Text ≠ "\x7b") :
    Middleware.UnmarshalCaddyfile m (NewDispenser (name :: arg :: rest)) =
      some ⟨m, ⟨name :: arg :: rest, 1, 0⟩,
        some (Dispenser.ArgErr ⟨name :: arg :: rest, 1, 0⟩)⟩ ∧
    Dispenser.ArgErr ⟨name :: arg :: rest, 1, 0⟩ =
      Dispenser.WrapErr ⟨name :: arg :: rest, 1, 0⟩
        ("wrong argument count or unexpected line ending after " ++ "'" ++ arg.Text ++ "'") := by
  have h : (name :: arg :: rest).drop 0 = name :: arg :: rest := rfl
  have hb1 : arg.isOpenBrace = false := isOpenBrace_of_text hb
  have ht : Dispenser.Token ⟨name :: arg :: rest, 1, 0⟩ = arg := Token_at 0 (drop_next h)
  have hv : Dispenser.Val ⟨name :: arg :: rest, 1, 0⟩ = arg.Text := Val_at 0 (drop_next h)
  constructor
  · simp only [Middleware.UnmarshalCaddyfile, NewDispenser]
    rw [nextLoop]
    simp only [Next_start _ 0 (List.cons_ne_nil _ _), NextArg_arg 0 h hsame hb1,
      Bool.not_true, Bool.false_eq_true, if_false, if_true]
    rfl
  · simp only [Dispenser.ArgErr, ht, hv, hb1, Bool.false_eq_true, if_false]

theorem C5_inline_argument_error_witness :
    Middleware.UnmarshalCaddyfile ⟨""⟩
        (NewDispenser [word 1 "apipass", word 1 "extra", word 1 "\x7b", word 2 "token",
          quoted 2 "s3cr3t", word 3 "\x7d"]) =
      some ⟨⟨""⟩,
        ⟨[word 1 "apipass", word 1 "extra", word 1 "\x7b", word 2 "token",
          quoted 2 "s3cr3t", word 3 "\x7d"], 1, 0⟩,
        some "wrong argument count or unexpected line ending after 'extra', at Caddyfile:1"⟩ :=
  (C5_inline_argument_error ⟨""⟩ (word 1 "apipass") (word 1 "extra")
    [word 1 "\x7b", word 2 "token", quoted 2 "s3cr3t", word 3 "\x7d"]
    (by decide) (by decide)).1.trans (by decide)

/-- C6: for a block (the opening brace on the line of the directive name, the closing
brace on a line of its own) of n >= 1 lines `token v_i`, each with exactly one value,
UnmarshalCaddyfile returns no error and leaves Token equal to the last value v_n.
A value is any token, quoted braces included, except the unquoted opening brace, which
after `token` opens a block and is no value. -/
theorem C6_last_token_wins (m : Middleware) (name brace close : Token)
    (line : Token × Token) (more : List (Token × Token))
    (hopen : isNextOnNewLine name brace = false) (hb : brace.isOpenBrace = true)
    (hlines : tokenLines (line :: more) close = true)
    (hclose : close.isCloseBrace = true) :
    ∃ d, Middleware.UnmarshalCaddyfile m
        (NewDispenser (name :: brace :: (flatLines (line :: more) ++ [close]))) =
      some ⟨⟨((line :: more).getLast (List.cons_ne_nil _ _)).2.Text⟩, d, none⟩ := by
  refine ⟨⟨name :: brace :: (flatLines (line :: more) ++ [close]),
    ((1 + 2 * (more.length + 1) + 1 : Nat) : Int), 0⟩, ?_⟩
  rw [UnmarshalCaddyfile_token_lines m name brace close line more hopen hb hlines hclose,
    lastValue_eq_getLast]

theorem C6_last_token_wins_witness :
    ∃ d, Middleware.UnmarshalCaddyfile ⟨""⟩
        (NewDispenser [word 1 "apipass", word 1 "\x7b", word 2 "token", quoted 2 "a",
          word 3 "token", quoted 3 "b", word 4 "\x7d"]) =
      some ⟨⟨"b"⟩, d, none⟩ :=
  C6_last_token_wins ⟨""⟩ (word 1 "apipass") (word 1 "\x7b") (word 4 "\x7d")
    (word 2 "token", quoted 2 "a") [(word 3 "token", quoted 3 "b")]
    (by decide) (by decide) (by decide) (by decide)

/-- C8: for a block of the single line `token` followed by k values on its line,
parsed into a fresh Middleware: with k = 0 there is no error and Token stays empty, so
that Validate fails; with k = 1 there is no error and Token is that value; with k >= 2
the result is the argument error, raised at the second value. A value is any token,
quoted braces included, except the unquoted opening brace, which after `token` opens
a block and is no value. -/
theorem C8_token_value_count (name brace key close : Token)
    (hopen : isNextOnNewLine name brace = false) (hb : brace.isOpenBrace = true)
    (hkey : key.Text = "token") (hclose : close.isCloseBrace = true) :
    (isNextOnNewLine key close = true →
      (∃ d, Middleware.UnmarshalCaddyfile ⟨""⟩ (NewDispenser [name, brace, key, close]) =
        some ⟨⟨""⟩, d, none⟩) ∧
      Middleware.Validate ⟨""⟩ ≠ none) ∧
    (∀ v : Token, isNextOnNewLine key v = false → v.isOpenBrace = false →
      isNextOnNewLine v close = true →
      ∃ d, Middleware.UnmarshalCaddyfile ⟨""⟩ (NewDispenser [name, brace, key, v, close]) =
        some ⟨⟨v.Text⟩, d, none⟩) ∧
    (∀ (v1 v2 : Token) (rest : List Token),
      isNextOnNewLine key v1 = false → v1.isOpenBrace = false →
      isNextOnNewLine v1 v2 = false → v2.isOpenBrace = false →
      Middleware.UnmarshalCaddyfile ⟨""⟩
          (NewDispenser (name :: brace :: key :: v1 :: v2 :: rest)) =
        some ⟨⟨v1.Text⟩, ⟨name :: brace :: key :: v1 :: v2 :: rest, 4, 1⟩,
          some (Dispenser.WrapErr ⟨name :: brace :: key :: v1 :: v2 :: rest, 4, 1⟩
            ("wrong argument count or unexpected line ending after " ++ "'" ++
              v2.Text ++ "'"))⟩) := by
  refine ⟨?_, ?_, ?_⟩
  · intro hnew
    refine ⟨⟨⟨[name, brace, key, close], ((0 + 1 + 1 + 1 : Nat) : Int), 0⟩, ?_⟩, by decide⟩
    have h : [name, brace, key, close].drop 0 = [name, brace, key, close] := rfl
    simp only [Middleware.UnmarshalCaddyfile, NewDispenser]
    rw [nextLoop_enter _ _ name brace _ hopen hb]
    simp only [List.length_cons, List.length_nil]
    rw [blockLoop_open_bare _ _ h hopen hb hkey hnew,
      blockLoop_close _ _ (drop_next (drop_next h)) hclose]
    simp only []
    rw [nextLoop_end _ _ 0 (drop_next (drop_next (drop_next h)))]
  · intro v hsame hv hnew
    have hl : tokenLines [(key, v)] close = true := by
      simp [tokenLines, tokenLine, firstToken, hkey, hsame, hv, hnew]
    exact ⟨_, UnmarshalCaddyfile_token_lines ⟨""⟩ name brace close (key, v) [] hopen hb hl
      hclose⟩
  · intro v1 v2 rest hs1 hv1 hs2 hv2
    have h : (name :: brace :: key :: v1 :: v2 :: rest).drop 0 =
        name :: brace :: key :: v1 :: v2 :: rest := rfl
    have h4 := drop_next (drop_next (drop_next (drop_next h)))
    have ht : Dispenser.Token ⟨name :: brace :: key :: v1 :: v2 :: rest,
        ((0 + 1 + 1 + 1 + 1 : Nat) : Int), 1⟩ = v2 := Token_at 1 h4
    have hv : Dispenser.Val ⟨name :: brace :: key :: v1 :: v2 :: rest,
        ((0 + 1 + 1 + 1 + 1 : Nat) : Int), 1⟩ = v2.Text := Val_at 1 h4
    simp only [Middleware.UnmarshalCaddyfile, NewDispenser]
    rw [nextLoop_enter _ _ name brace _ hopen hb]
    simp only [List.length_cons]
    rw [blockLoop_open_two _ _ h hopen hb hkey hs1 hv1 hs2 hv2]
    simp only [Dispenser.ArgErr, ht, hv, hv2, Bool.false_eq_true, if_false]
    rfl

theorem C8_token_value_count_witness :
    Middleware.UnmarshalCaddyfile ⟨""⟩
        (NewDispenser [word 1 "apipass", word 1 "\x7b", word 2 "token", quoted 2 "a",
          quoted 2 "b", word 3 "\x7d"]) =
      some ⟨⟨"a"⟩,
        ⟨[word 1 "apipass", word 1 "\x7b", word 2 "token", quoted 2 "a", quoted 2 "b",
          word 3 "\x7d"], 4, 1⟩,
        some "wrong argument count or unexpected line ending after 'b', at Caddyfile:2"⟩ :=
  ((C8_token_value_count (word 1 "apipass") (word 1 "\x7b") (word 2 "token")
    (word 3 "\x7d") (by decide) (by decide) (by decide) (by decide)).2.2
    (quoted 2 "a") (quoted 2 "b") [word 3 "\x7d"]
    (by decide) (by decide) (by decide) (by decide)).trans (by decide)

end Apipass
